import Mathlib

/-
Verification development for the atlas-families service.

The Go source keeps one record per character (table `family_members`); the
business logic lives in `family/model.go` (immutable member value + fluent
builder + pure validators), `family/processor.go` (atomic single/dual record
operations), `family/administrator.go` (coordination workflows) and
`scheduler/reputation_reset.go` (daily reset timer).

Shallow embedding conventions:
- `uint32` fields become `Nat`; every Go `uint32` arithmetic operation that can
  wrap is reduced modulo 2^32 through `u32`.
- `uuid.UUID` becomes `Nat` (0 plays the role of `uuid.Nil`).
- `time.Time` becomes a `Nat` tick; `Touch` stores the tick passed to the
  operation as `now`.
- the database is a list of members; gorm `First`/`Save`/`Delete` become
  `findMember` / `saveDB` / `deleteDB`; a gorm transaction that aborts leaves
  the caller's database value untouched (operations return `Except`, and an
  error result means no state change unless the value is threaded explicitly,
  as in the deliberately non-atomic `dissolveSubtree`).
-/

namespace AtlasFamilies

/-- Reduction modulo 2^32, the behaviour of Go uint32 arithmetic. -/
def u32 (n : Nat) : Nat := n % 4294967296

/-- Error values. These mirror the sentinel errors declared in
`family/model.go`, `family/processor.go` and `family/administrator.go`;
`noSenior` stands for the ad-hoc `errors.New("junior has no senior to award
reputation to")` in `AwardRepToSenior`. -/
inductive Err where
  | invalidCharacterId
  | invalidTenantId
  | invalidLevel
  | tooManyJuniors
  | selfReference
  | duplicateJunior
  | invalidDailyRep
  | memberNotFound
  | seniorNotFound
  | juniorNotFound
  | seniorHasTooManyJuniors
  | juniorAlreadyLinked
  | levelDifferenceTooLarge
  | notOnSameMap
  | insufficientRep
  | repCapExceeded
  | noLinkToBreak
  | memberAlreadyExists
  | seniorMustExist
  | invalidActivityType
  | noSenior
  deriving Repr, DecidableEq

/-- The immutable family member value of `family/model.go`.  `world` is the
Go `byte` field; `mapId` is the map field referenced by the processor's
same-location check.  Timestamps are abstract ticks. -/
structure FamilyMember where
  characterId : Nat
  tenantId : Nat
  seniorId : Option Nat
  juniorIds : List Nat
  rep : Nat
  dailyRep : Nat
  level : Nat
  world : Nat
  mapId : Nat
  createdAt : Nat
  updatedAt : Nat
  deriving Repr, DecidableEq

/-- The zero value `FamilyMember{}` that Go returns alongside errors and for
the zero-amount no-op in `ProcessRepActivity`. -/
def FamilyMember.zero : FamilyMember :=
  { characterId := 0, tenantId := 0, seniorId := none, juniorIds := []
    rep := 0, dailyRep := 0, level := 0, world := 0, mapId := 0
    createdAt := 0, updatedAt := 0 }

/-- `NewBuilder(characterId, tenantId, level, world)`: fresh builder state with
empty junior list, zero rep counters and both timestamps set to now. -/
def newMember (cid tenant lvl world now : Nat) : FamilyMember :=
  { characterId := cid, tenantId := tenant, seniorId := none, juniorIds := []
    rep := 0, dailyRep := 0, level := lvl, world := world, mapId := 0
    createdAt := now, updatedAt := now }

/-- Builder `AddJunior`: appends to the junior list (no validation here). -/
def addJuniorB (j : Nat) (m : FamilyMember) : FamilyMember :=
  { m with juniorIds := m.juniorIds ++ [j] }

/-- Removes the first occurrence, as the builder `RemoveJunior` loop with its
`break` does. -/
def removeFirst : List Nat → Nat → List Nat
  | [], _ => []
  | x :: xs, j => if x = j then xs else x :: removeFirst xs j

/-- Builder `RemoveJunior`. -/
def removeJuniorB (j : Nat) (m : FamilyMember) : FamilyMember :=
  { m with juniorIds := removeFirst m.juniorIds j }

/-- Builder `SetSeniorId`. -/
def setSeniorIdB (s : Nat) (m : FamilyMember) : FamilyMember :=
  { m with seniorId := some s }

/-- Builder `ClearSeniorId`. -/
def clearSeniorIdB (m : FamilyMember) : FamilyMember :=
  { m with seniorId := none }

/-- Builder `SetJuniorIds`. -/
def setJuniorIdsB (js : List Nat) (m : FamilyMember) : FamilyMember :=
  { m with juniorIds := js }

/-- Builder `AddRep`: Go `b.rep += amount` on uint32, wrapping. -/
def addRepB (a : Nat) (m : FamilyMember) : FamilyMember :=
  { m with rep := u32 (m.rep + a) }

/-- Builder `AddDailyRep`: wrapping uint32 addition. -/
def addDailyRepB (a : Nat) (m : FamilyMember) : FamilyMember :=
  { m with dailyRep := u32 (m.dailyRep + a) }

/-- Builder `SubtractRep`: floors at zero. -/
def subtractRepB (a : Nat) (m : FamilyMember) : FamilyMember :=
  { m with rep := if a ≤ m.rep then m.rep - a else 0 }

/-- Builder `SetLevel`. -/
def setLevelB (lvl : Nat) (m : FamilyMember) : FamilyMember :=
  { m with level := lvl }

/-- Builder `SetWorld`. -/
def setWorldB (w : Nat) (m : FamilyMember) : FamilyMember :=
  { m with world := w }

/-- Builder `Touch`: stamps `updatedAt` with the current tick. -/
def touchB (now : Nat) (m : FamilyMember) : FamilyMember :=
  { m with updatedAt := now }

/-- Membership test on a junior list (Go loops with `==`). -/
def containsNat (xs : List Nat) (x : Nat) : Bool := xs.any (· == x)

/-- Duplicate detection, as the `seen` map scan in `ValidateJuniorIds`. -/
def hasDup : List Nat → Bool
  | [] => false
  | x :: xs => containsNat xs x || hasDup xs

/-- `CanReceiveRep`: Go `fm.dailyRep+amount <= 5000` where the addition is
uint32 and wraps. -/
def canReceiveRepB (m : FamilyMember) (amt : Nat) : Bool :=
  u32 (m.dailyRep + amt) ≤ 5000

/-- `ValidateLevelDifference`: `|int(a) - int(b)| <= 20`. -/
def levelDiffOkB (a b : Nat) : Bool :=
  ((a : Int) - (b : Int)).natAbs ≤ 20

/-- `Build` of `family/model.go`: runs `ValidateCharacterId`,
`ValidateTenantId`, `ValidateLevel`, `ValidateJuniorIds` (length, then
self-reference, then duplicates), `ValidateSeniorId`, then the
`dailyRep > 5000` business rule, in the source order, and returns the
member unchanged when everything passes. -/
def build (b : FamilyMember) : Except Err FamilyMember :=
  if b.characterId == 0 then .error .invalidCharacterId
  else if b.tenantId == 0 then .error .invalidTenantId
  else if b.level == 0 then .error .invalidLevel
  else if 2 < b.juniorIds.length then .error .tooManyJuniors
  else if containsNat b.juniorIds b.characterId then .error .selfReference
  else if hasDup b.juniorIds then .error .duplicateJunior
  else if (match b.seniorId with
           | some s => s == b.characterId
           | none => false) then .error .selfReference
  else if 5000 < b.dailyRep then .error .invalidDailyRep
  else .ok b

/-- Conjunction of every check `Build` performs; `build` succeeds exactly on
members satisfying this. -/
def memberValidB (m : FamilyMember) : Bool :=
  (m.characterId != 0) && (m.tenantId != 0) && (m.level != 0) &&
  !(2 < m.juniorIds.length) && !(containsNat m.juniorIds m.characterId) &&
  !(hasDup m.juniorIds) &&
  !(match m.seniorId with
    | some s => s == m.characterId
    | none => false) &&
  !(5000 < m.dailyRep)

/-- The record store: one row per member, keyed by `characterId`. -/
abbrev DB := List FamilyMember

/-- `GetByCharacterIdProvider`: gorm `First` on `character_id = ?`. -/
def findMember (db : DB) (cid : Nat) : Option FamilyMember :=
  db.find? (fun m => m.characterId == cid)

/-- gorm `Save`: updates the row with the same `characterId` when it exists,
inserts otherwise.  Used for both `UpdateProvider` and `SaveMember`. -/
def saveDB (db : DB) (x : FamilyMember) : DB :=
  if db.any (fun m => m.characterId == x.characterId) then
    db.map (fun m => if m.characterId == x.characterId then x else m)
  else
    db ++ [x]

/-- gorm `Delete` on `character_id = ?`. -/
def deleteDB (db : DB) (cid : Nat) : DB :=
  db.filter (fun m => m.characterId != cid)

/-- Processor `AddJunior` (`family/processor.go`).  Checks self-reference,
senior existence and capacity, junior existence and freedom, level gap and
same location, then inside one transaction rebuilds the senior with the new
junior appended and the junior with its senior pointer set.  The same-location
check compares `world` and `mapId`.
Modelled from the spec: the `IsSameLocation` helper and the member's `mapId`
accessor are referenced by `processor.go` but their definitions are not in the
provided sources; per the spec's `ValidateSameLocation`, it is strict equality
on both the world and the map. -/
def addJunior (db : DB) (now s j : Nat) : Except Err (DB × FamilyMember) :=
  if s == j then .error .selfReference
  else
    match findMember db s with
    | none => .error .seniorNotFound
    | some senior =>
      if !(senior.juniorIds.length < 2) then .error .seniorHasTooManyJuniors
      else
        match findMember db j with
        | none => .error .juniorNotFound
        | some junior =>
          if junior.seniorId.isSome then .error .juniorAlreadyLinked
          else if !(levelDiffOkB senior.level junior.level) then
            .error .levelDifferenceTooLarge
          else if !(senior.world == junior.world && senior.mapId == junior.mapId) then
            .error .notOnSameMap
          else
            match build (touchB now (addJuniorB j senior)) with
            | .error e => .error e
            | .ok s2 =>
              match build (touchB now (setSeniorIdB s junior)) with
              | .error e => .error e
              | .ok j2 => .ok (saveDB (saveDB db s2) j2, s2)

/-- The per-junior loop shared by `RemoveMember`, `RemoveMemberCascade` and
`BreakLink`: for each junior id that resolves to a record, clears the senior
pointer, saves and collects the updated junior; a failed lookup is skipped; a
failed rebuild aborts the transaction. -/
def clearJuniorsLoop (now : Nat) (db : DB) (ids : List Nat)
    (acc : List FamilyMember) : Except Err (DB × List FamilyMember) :=
  match ids with
  | [] => .ok (db, acc)
  | jid :: rest =>
    match findMember db jid with
    | none => clearJuniorsLoop now db rest acc
    | some junior =>
      match build (touchB now (clearSeniorIdB junior)) with
      | .error e => .error e
      | .ok j2 => clearJuniorsLoop now (saveDB db j2) rest (acc ++ [j2])

/-- The "member has a senior" step shared by `RemoveMember`,
`RemoveMemberCascade` and `BreakLink`: when the member's senior pointer
resolves to a record, that senior is rebuilt without the member and saved; a
senior that does not resolve is silently skipped (the source's `if ..., err ==
nil` guard). -/
def dropFromSenior (db : DB) (now c : Nat) (member : FamilyMember) :
    Except Err (DB × List FamilyMember) :=
  match member.seniorId with
  | none => .ok (db, [])
  | some sid =>
    match findMember db sid with
    | none => .ok (db, [])
    | some senior =>
      match build (touchB now (removeJuniorB c senior)) with
      | .error e => .error e
      | .ok s2 => .ok (saveDB db s2, [s2])

/-- Processor `RemoveMember` and administrator `RemoveMemberCascade` (their
bodies are line-for-line the same logic): drops the member from its senior's
junior list when that senior resolves, clears the senior pointer of each of
its juniors, deletes the member's row, all in one transaction.  Both return
the accumulated `updatedMembers` slice together with the error even when the
transaction aborted and rolled the store back, so the result is modelled as
`(store, updatedMembers, error?)`. -/
def removeMemberCascade (db : DB) (now c : Nat) :
    DB × List FamilyMember × Option Err :=
  match findMember db c with
  | none => (db, [], some .memberNotFound)
  | some member =>
    match dropFromSenior db now c member with
    | .error e => (db, [], some e)
    | .ok (db1, ups1) =>
      match clearJuniorsLoop now db1 member.juniorIds [] with
      | .error e => (db, ups1, some e)
      | .ok (db2, ups2) => (deleteDB db2 c, ups1 ++ ups2, none)

/-- The result-list fix-up at the end of `BreakLink`: replace the first entry
with the member's id by the final member value, then append it again when the
slice is empty or its last entry is not the member (the source's trailing
`if len(...) == 0 || ...` check). -/
def replaceFirstByCid (ups : List FamilyMember) (c : Nat)
    (m2 : FamilyMember) : List FamilyMember :=
  match ups with
  | [] => []
  | x :: xs =>
    if x.characterId == c then m2 :: xs else x :: replaceFirstByCid xs c m2

/-- See `replaceFirstByCid`; this is the whole fix-up. -/
def fixupUpdatedList (ups : List FamilyMember) (c : Nat)
    (m2 : FamilyMember) : List FamilyMember :=
  let r := replaceFirstByCid ups c m2
  match r.getLast? with
  | none => r ++ [m2]
  | some lastM => if lastM.characterId == c then r else r ++ [m2]

/-- The "member has a senior" branch of `BreakLink`: update the senior through
`dropFromSenior`, then save the member with its own senior pointer cleared. -/
def breakSeniorStep (db : DB) (now c : Nat) (member : FamilyMember) :
    Except Err (DB × List FamilyMember) :=
  match member.seniorId with
  | none => .ok (db, [])
  | some _ =>
    match dropFromSenior db now c member with
    | .error e => .error e
    | .ok (db1, ups) =>
      match build (touchB now (clearSeniorIdB member)) with
      | .error e => .error e
      | .ok m1 => .ok (saveDB db1 m1, ups ++ [m1])

/-- Processor `BreakLink` (`family/processor.go`).  Fails with `NoLinkToBreak`
when the member has neither relation.  When it has a senior, the senior loses
the member from its junior list and the member is saved with the senior
pointer cleared.  When it has juniors, each junior's senior pointer is cleared
and the member is then rebuilt from the ORIGINALLY FETCHED model with only
`SetJuniorIds([])` applied - exactly as the source does - so that final save
carries the original (uncleared) senior pointer. -/
def breakLink (db : DB) (now c : Nat) : Except Err (DB × List FamilyMember) :=
  match findMember db c with
  | none => .error .memberNotFound
  | some member =>
    if member.seniorId.isNone && member.juniorIds.isEmpty then
      .error .noLinkToBreak
    else
      match breakSeniorStep db now c member with
      | .error e => .error e
      | .ok (db1, ups1) =>
        if member.juniorIds.isEmpty then .ok (db1, ups1)
        else
          match clearJuniorsLoop now db1 member.juniorIds [] with
          | .error e => .error e
          | .ok (db2, ups2) =>
            match build (touchB now (setJuniorIdsB [] member)) with
            | .error e => .error e
            | .ok m2 =>
              .ok (saveDB db2 m2, fixupUpdatedList (ups1 ++ ups2) c m2)

/-- Processor `AwardRep` (`family/processor.go`): gated by `CanReceiveRep`,
then adds the amount to both counters (uint32, wrapping), touches and saves. -/
def awardRep (db : DB) (now c amt : Nat) : Except Err (DB × FamilyMember) :=
  match findMember db c with
  | none => .error .memberNotFound
  | some m =>
    if !(canReceiveRepB m amt) then .error .repCapExceeded
    else
      match build (touchB now (addDailyRepB amt (addRepB amt m))) with
      | .error e => .error e
      | .ok m2 => .ok (saveDB db m2, m2)

/-- Processor `DeductRep`: requires `rep >= amount`, then subtracts. -/
def deductRep (db : DB) (now c amt : Nat) : Except Err (DB × FamilyMember) :=
  match findMember db c with
  | none => .error .memberNotFound
  | some m =>
    if m.rep < amt then .error .insufficientRep
    else
      match build (touchB now (subtractRepB amt m)) with
      | .error e => .error e
      | .ok m2 => .ok (saveDB db m2, m2)

/-- Processor `ResetDailyRep` and administrator `BatchResetDailyRep` (the same
single SQL statement): `UPDATE family_members SET daily_rep = 0, updated_at =
now WHERE daily_rep > 0`, returning the affected row count. -/
def resetDailyRepDB (db : DB) (now : Nat) : DB × Nat :=
  (db.map (fun m =>
      if 0 < m.dailyRep then { m with dailyRep := 0, updatedAt := now } else m),
   (db.filter (fun m => 0 < m.dailyRep)).length)

/-- The `finalAmount` computed by `AwardRepToSenior`: halved (integer
division) when the junior strictly outlevels the senior. -/
def finAmount (junior senior : FamilyMember) (amt : Nat) : Nat :=
  if senior.level < junior.level then amt / 2 else amt

/-- Administrator `AwardRepToSenior` (`family/administrator.go`): resolves the
junior's senior, halves the amount (integer division) when the junior's level
strictly exceeds the senior's, then adds the final amount to the senior's
counters through the builder and saves.  The daily cap is enforced by the
builder's `dailyRep > 5000` validation. -/
def awardRepToSenior (db : DB) (now j amt : Nat) :
    Except Err (DB × FamilyMember) :=
  match findMember db j with
  | none => .error .memberNotFound
  | some junior =>
    match junior.seniorId with
    | none => .error .noSenior
    | some sid =>
      match findMember db sid with
      | none => .error .memberNotFound
      | some senior =>
        match build (touchB now (addDailyRepB (finAmount junior senior amt)
            (addRepB (finAmount junior senior amt) senior))) with
        | .error e => .error e
        | .ok s2 => .ok (saveDB db s2, s2)

/-- Administrator `ProcessRepActivity`: fixed translation table, computed in
uint32 arithmetic (the Go variable `repAmount` is inlined); a zero amount is a
silent no-op returning the zero member; anything but the two known activity
types is `InvalidActivityType`. -/
def processRepActivity (db : DB) (now j : Nat) (activityType : String)
    (value : Nat) : Except Err (DB × FamilyMember) :=
  if activityType = "mob_kill" then
    if u32 (value / 5 * 2) = 0 then .ok (db, FamilyMember.zero)
    else awardRepToSenior db now j (u32 (value / 5 * 2))
  else if activityType = "expedition" then
    if u32 (value * 10) = 0 then .ok (db, FamilyMember.zero)
    else awardRepToSenior db now j (u32 (value * 10))
  else .error .invalidActivityType

/-- Administrator `CreateMember`: refuses an existing character id, builds a
fresh member via `NewBuilder(...).Build()` and saves it. -/
def createMember (db : DB) (now cid tenant lvl world : Nat) :
    Except Err (DB × FamilyMember) :=
  if db.any (fun m => m.characterId == cid) then .error .memberAlreadyExists
  else
    match build (newMember cid tenant lvl world now) with
    | .error e => .error e
    | .ok m => .ok (saveDB db m, m)

/-- Administrator `EnsureMemberExists`: creates when absent; when present,
rebuilds, touches and saves only if the stored level or world differs from
the supplied values, and otherwise returns the stored record with no write. -/
def ensureMemberExists (db : DB) (now cid tenant lvl world : Nat) :
    Except Err (DB × FamilyMember) :=
  match findMember db cid with
  | none => createMember db now cid tenant lvl world
  | some m =>
    if m.level != lvl || m.world != world then
      match build (touchB now (setWorldB world (setLevelB lvl m))) with
      | .error e => .error e
      | .ok m2 => .ok (saveDB db m2, m2)
    else .ok (db, m)

/-- The "ensure junior exists or create" step of `AddJuniorWithValidation`. -/
def fetchOrCreateJunior (db : DB) (now j tenant jlvl jworld : Nat) :
    Except Err (DB × FamilyMember) :=
  match findMember db j with
  | some junior => .ok (db, junior)
  | none => createMember db now j tenant jlvl jworld

/-- The "update junior's location to match provided data" step of
`AddJuniorWithValidation`: rebuild with the supplied level and world and save
when either differs from the stored values. -/
def syncJunior (db : DB) (now jlvl jworld : Nat) (junior : FamilyMember) :
    Except Err DB :=
  if junior.level != jlvl || junior.world != jworld then
    match build (touchB now (setWorldB jworld (setLevelB jlvl junior))) with
    | .error e => .error e
    | .ok uj => .ok (saveDB db uj)
  else .ok db

/-- Administrator `AddJuniorWithValidation`: inside one transaction, requires
the senior to exist (any lookup failure becomes `SeniorMustExist`), fetches or
creates the junior, syncs the junior's level/world when they differ, appends
the junior to the senior's list (validated only by the builder), then sets the
junior's senior pointer (validated only by the builder - the source never
checks whether the junior already has a senior), and finally re-reads both
rows. -/
def addJuniorWithValidation (db : DB) (now s j tenant jlvl jworld : Nat) :
    Except Err (DB × List FamilyMember) :=
  match findMember db s with
  | none => .error .seniorMustExist
  | some _ =>
    match fetchOrCreateJunior db now j tenant jlvl jworld with
    | .error e => .error e
    | .ok (dbA, junior) =>
      match syncJunior dbA now jlvl jworld junior with
      | .error e => .error e
      | .ok dbB =>
        match findMember dbB s with
        | none => .error .memberNotFound
        | some senior =>
          match build (touchB now (addJuniorB j senior)) with
          | .error e => .error e
          | .ok s2 =>
            match findMember (saveDB dbB s2) j with
            | none => .error .memberNotFound
            | some junior2 =>
              match build (touchB now (setSeniorIdB s junior2)) with
              | .error e => .error e
              | .ok j2 =>
                match findMember (saveDB (saveDB dbB s2) j2) s,
                      findMember (saveDB (saveDB dbB s2) j2) j with
                | some fs, some fj => .ok (saveDB (saveDB dbB s2) j2, [fs, fj])
                | _, _ => .error .memberNotFound

/-- The inner loop of `DissolveSubtree`: removes each direct junior through
`RemoveMemberCascade`; on the first failure it returns the error with an
EMPTY member list (the source's `return []FamilyMember{}, err`), keeping the
store state produced so far because each removal already committed. -/
def dissolveLoop (now : Nat) (db : DB) (ids : List Nat)
    (acc : List FamilyMember) : DB × List FamilyMember × Option Err :=
  match ids with
  | [] => (db, acc, none)
  | jid :: rest =>
    match removeMemberCascade db now jid with
    | (db1, _, some e) => (db1, [], some e)
    | (db1, ms, none) => dissolveLoop now db1 rest (acc ++ ms)

/-- Administrator `DissolveSubtree`: removes every direct junior of the senior
first (each removal its own committed step), then the senior itself; any
failure surfaces the error with an empty member list while the completed
removals stay applied. -/
def dissolveSubtree (db : DB) (now s : Nat) :
    DB × List FamilyMember × Option Err :=
  match findMember db s with
  | none => (db, [], some .memberNotFound)
  | some senior =>
    match dissolveLoop now db senior.juniorIds [] with
    | (db1, _, some e) => (db1, [], some e)
    | (db1, acc, none) =>
      match removeMemberCascade db1 now s with
      | (db2, _, some e) => (db2, [], some e)
      | (db2, ms, none) => (db2, acc ++ ms, none)

/-- `calculateNextResetTime` (`scheduler/reputation_reset.go`) at minute
granularity: `now` counts minutes in the configured time zone; today's reset
instant is computed from the configured hour and minute, and when it is
already strictly past it is advanced by exactly 24 hours. -/
def calculateNextResetTime (resetHour resetMinute now : Nat) : Nat :=
  if now / 1440 * 1440 + resetHour * 60 + resetMinute < now
  then now / 1440 * 1440 + resetHour * 60 + resetMinute + 1440
  else now / 1440 * 1440 + resetHour * 60 + resetMinute

/-- The member update performed by a reputation award: add the amount to both
counters (uint32) and touch.  This is the builder chain
`AddRep(a).AddDailyRep(a).Touch()` shared by `AwardRep` and
`AwardRepToSenior`. -/
def repUpd (now a : Nat) (m : FamilyMember) : FamilyMember :=
  touchB now (addDailyRepB a (addRepB a m))

/-- The spec's bidirectional-consistency invariant over the whole store: for
every pair of members A and B, A lists B as junior exactly when B points to A
as senior. -/
def bidirConsistentB (db : DB) : Bool :=
  db.all (fun a =>
    db.all (fun b =>
      (!(containsNat a.juniorIds b.characterId) ||
        b.seniorId == some a.characterId) &&
      (!(b.seniorId == some a.characterId) ||
        containsNat a.juniorIds b.characterId)))

/-- Every member of the store passes every single-record `Build` check. -/
def allValidB (db : DB) : Bool := db.all memberValidB

/-- The spec's single-record invariants, stated over the mathematical reading
of the record: bounded junior fanout, no duplicates, no self-reference on
either side, the daily cap, and a positive level. -/
def MemberInvariants (m : FamilyMember) : Prop :=
  m.juniorIds.length ≤ 2 ∧ m.juniorIds.Nodup ∧
  (∀ sid, m.seniorId = some sid → sid ≠ m.characterId) ∧
  m.characterId ∉ m.juniorIds ∧ m.dailyRep ≤ 5000 ∧ 0 < m.level

/-- One inbound operation of the service, with the tick used for `Touch`. -/
inductive Com where
  | addJunior (now s j : Nat)
  | addJuniorWithValidation (now s j tenant lvl world : Nat)
  | removeMember (now c : Nat)
  | breakLink (now c : Nat)
  | awardRep (now c amt : Nat)
  | deductRep (now c amt : Nat)
  | awardRepToSenior (now j amt : Nat)
  | processRepActivity (now j : Nat) (activityType : String) (value : Nat)
  | resetDailyRep (now : Nat)
  | createMember (now cid tenant lvl world : Nat)
  | ensureMemberExists (now cid tenant lvl world : Nat)
  | dissolveSubtree (now s : Nat)

/-- Runs one operation against the store; a failed transactional operation
leaves the store as it was, while `dissolveSubtree` keeps whatever its
committed steps produced. -/
def runCom : Com → DB → DB
  | .addJunior now s j, db =>
    match addJunior db now s j with
    | .ok (db2, _) => db2
    | .error _ => db
  | .addJuniorWithValidation now s j t lv w, db =>
    match addJuniorWithValidation db now s j t lv w with
    | .ok (db2, _) => db2
    | .error _ => db
  | .removeMember now c, db => (removeMemberCascade db now c).1
  | .breakLink now c, db =>
    match breakLink db now c with
    | .ok (db2, _) => db2
    | .error _ => db
  | .awardRep now c amt, db =>
    match awardRep db now c amt with
    | .ok (db2, _) => db2
    | .error _ => db
  | .deductRep now c amt, db =>
    match deductRep db now c amt with
    | .ok (db2, _) => db2
    | .error _ => db
  | .awardRepToSenior now j amt, db =>
    match awardRepToSenior db now j amt with
    | .ok (db2, _) => db2
    | .error _ => db
  | .processRepActivity now j ty v, db =>
    match processRepActivity db now j ty v with
    | .ok (db2, _) => db2
    | .error _ => db
  | .resetDailyRep now, db => (resetDailyRepDB db now).1
  | .createMember now cid t lv w, db =>
    match createMember db now cid t lv w with
    | .ok (db2, _) => db2
    | .error _ => db
  | .ensureMemberExists now cid t lv w, db =>
    match ensureMemberExists db now cid t lv w with
    | .ok (db2, _) => db2
    | .error _ => db
  | .dissolveSubtree now s, db => (dissolveSubtree db now s).1

/-- Runs a sequence of operations. -/
def run (cs : List Com) (db : DB) : DB :=
  cs.foldl (fun db c => runCom c db) db

/-- Extracts the store from a successful single-member operation. -/
def okDB1 : Except Err (DB × FamilyMember) → Option DB
  | .ok (db, _) => some db
  | .error _ => none

/-- Extracts the store from a successful multi-member operation. -/
def okDB2 : Except Err (DB × List FamilyMember) → Option DB
  | .ok (db, _) => some db
  | .error _ => none

/-- A `Link` immediately followed by `Unlink` of the junior: the round trip of
the spec's algebraic property. -/
def linkThenBreak (db : DB) (n1 n2 s j : Nat) : Option DB :=
  match addJunior db n1 s j with
  | .ok (db1, _) =>
    match breakLink db1 n2 j with
    | .ok (db2, _) => some db2
    | .error _ => none
  | .error _ => none

/-- Concrete member shorthand for the closed test states below. -/
def mkM (cid : Nat) (senior : Option Nat) (js : List Nat) (lvl : Nat) :
    FamilyMember :=
  { characterId := cid, tenantId := 1, seniorId := senior, juniorIds := js
    rep := 0, dailyRep := 0, level := lvl, world := 0, mapId := 0
    createdAt := 0, updatedAt := 0 }

/-- Store for the coordination-layer relink scenario: member 1 already
sponsors member 2, member 3 is free. -/
def c1db : DB := [mkM 1 none [2] 10, mkM 2 (some 1) [] 10, mkM 3 none [] 10]

/-- Store for the link/unlink round trip where the junior has a junior of its
own: member 2 already sponsors member 3. -/
def c6db : DB := [mkM 1 none [] 10, mkM 2 none [3] 10, mkM 3 (some 2) [] 10]

/-- The store `linkThenBreak c6db 5 6 1 2` actually produces: member 2 keeps
the stale senior pointer to 1. -/
def c6dbAfter : DB :=
  [{ mkM 1 none [] 10 with updatedAt := 6 },
   { mkM 2 (some 1) [] 10 with updatedAt := 6 },
   { mkM 3 none [] 10 with updatedAt := 6 }]

/-- Store for the daily-cap uint32 wraparound: one member at 4000 daily rep. -/
def c3db : DB := [{ mkM 1 none [] 10 with dailyRep := 4000 }]

/-- Store for activity processing: member 1 sponsors member 2. -/
def c5db : DB := [mkM 1 none [2] 10, mkM 2 (some 1) [] 10]

/-- The store and credited senior produced by the overflowing expedition. -/
def c5dbAfter : DB :=
  [{ mkM 1 none [2] 10 with rep := 4, dailyRep := 4, updatedAt := 5 },
   mkM 2 (some 1) [] 10]

/-- Store for the partial dissolution: member 1 lists a real junior 2 and a
dangling junior id 99 with no record. -/
def c8db : DB := [mkM 1 none [2, 99] 10, mkM 2 (some 1) [] 10]

/-- Member 1 after the successful first removal step of the dissolution. -/
def c8m1After (now : Nat) : FamilyMember :=
  { mkM 1 none [99] 10 with updatedAt := now }

/-- Store for witnesses that award reputation: senior 1 at level 40 with 4900
daily rep, junior 2 at level 60. -/
def wdb : DB :=
  [{ mkM 1 none [2] 40 with dailyRep := 4900 }, mkM 2 (some 1) [] 60]

theorem build_ok_iff {b m : FamilyMember} :
    build b = Except.ok m ↔ memberValidB b = true ∧ b = m := by
  unfold build memberValidB
  repeat' split
  all_goals simp_all

theorem build_of_valid {m : FamilyMember} (h : memberValidB m = true) :
    build m = Except.ok m :=
  build_ok_iff.mpr ⟨h, rfl⟩

theorem build_ok_valid {b m : FamilyMember} (h : build b = Except.ok m) :
    memberValidB m = true ∧ b = m := by
  have := build_ok_iff.mp h
  exact ⟨this.2 ▸ this.1, this.2⟩

theorem mem_saveDB {db : DB} {x y : FamilyMember}
    (h : y ∈ saveDB db x) : y = x ∨ y ∈ db := by
  unfold saveDB at h
  split at h
  · obtain ⟨z, hz, hzy⟩ := List.mem_map.mp h
    by_cases hc : z.characterId = x.characterId
    · simp [hc] at hzy
      exact Or.inl hzy.symm
    · simp [hc] at hzy
      exact Or.inr (hzy ▸ hz)
  · rcases List.mem_append.mp h with h1 | h1
    · exact Or.inr h1
    · exact Or.inl (List.mem_singleton.mp h1)

theorem allValidB_mem {db : DB} {m : FamilyMember}
    (hv : allValidB db = true) (hm : m ∈ db) : memberValidB m = true :=
  List.all_eq_true.mp hv m hm

theorem allValidB_saveDB {db : DB} {x : FamilyMember}
    (hv : allValidB db = true) (hx : memberValidB x = true) :
    allValidB (saveDB db x) = true := by
  refine List.all_eq_true.mpr fun y hy => ?_
  rcases mem_saveDB hy with rfl | hmem
  · exact hx
  · exact allValidB_mem hv hmem

theorem allValidB_deleteDB {db : DB} {c : Nat}
    (hv : allValidB db = true) : allValidB (deleteDB db c) = true := by
  refine List.all_eq_true.mpr fun y hy => ?_
  exact allValidB_mem hv (List.mem_of_mem_filter hy)

theorem allValidB_find {db : DB} {c : Nat} {m : FamilyMember}
    (hv : allValidB db = true) (hf : findMember db c = some m) :
    memberValidB m = true :=
  allValidB_mem hv (List.mem_of_find?_eq_some hf)

theorem memberValidB_fields {m : FamilyMember} {d u r : Nat}
    (h : memberValidB m = true) (hd : d ≤ 5000) :
    memberValidB { m with rep := r, dailyRep := d, updatedAt := u } = true := by
  unfold memberValidB at h ⊢
  simp only [Bool.and_eq_true] at h ⊢
  exact ⟨h.1, by simpa using hd⟩

theorem memberValidB_repUpd {m : FamilyMember} {now a : Nat}
    (h : memberValidB m = true) (hd : u32 (m.dailyRep + a) ≤ 5000) :
    memberValidB (repUpd now a m) = true := by
  have he : repUpd now a m =
      { m with rep := u32 (m.rep + a), dailyRep := u32 (m.dailyRep + a)
               updatedAt := now } := rfl
  rw [he]
  exact memberValidB_fields h hd

theorem build_repUpd {m : FamilyMember} (now a : Nat)
    (h : memberValidB m = true) :
    build (repUpd now a m) =
      if u32 (m.dailyRep + a) ≤ 5000 then Except.ok (repUpd now a m)
      else Except.error Err.invalidDailyRep := by
  by_cases hc : u32 (m.dailyRep + a) ≤ 5000
  · rw [if_pos hc]
    exact build_of_valid (memberValidB_repUpd h hc)
  · rw [if_neg hc]
    unfold memberValidB at h
    simp only [Bool.and_eq_true] at h
    unfold build
    have hrep : (repUpd now a m).characterId = m.characterId := rfl
    have hten : (repUpd now a m).tenantId = m.tenantId := rfl
    have hlvl : (repUpd now a m).level = m.level := rfl
    have hjun : (repUpd now a m).juniorIds = m.juniorIds := rfl
    have hsen : (repUpd now a m).seniorId = m.seniorId := rfl
    have hday : (repUpd now a m).dailyRep = u32 (m.dailyRep + a) := rfl
    have h1 := h.1.1.1.1.1.1.1
    have h2 := h.1.1.1.1.1.1.2
    have h3 := h.1.1.1.1.1.2
    have h4 := h.1.1.1.1.2
    have h5 := h.1.1.1.2
    have h6 := h.1.1.2
    have h7 := h.1.2
    simp only [Bool.not_eq_true'] at h1 h2 h3 h4 h5 h6 h7
    have hgt : 5000 < u32 (m.dailyRep + a) := Nat.lt_of_not_le hc
    simp [hrep, hten, hlvl, hjun, hsen, hday, h1, h2, h3, h4, h5, h6, h7, hgt]
    simp only [bne_iff_ne, ne_eq] at h1 h2 h3
    rw [if_neg h1, if_neg h2, if_neg h3, if_neg (of_decide_eq_false h4)]

theorem awardRep_allValid {db db2 : DB} {now c amt : Nat} {r : FamilyMember}
    (hv : allValidB db = true) (h : awardRep db now c amt = .ok (db2, r)) :
    allValidB db2 = true := by
  unfold awardRep at h
  split at h
  · exact Except.noConfusion h
  · split at h
    · exact Except.noConfusion h
    · split at h
      · exact Except.noConfusion h
      · rename_i m _ _ m2 hb
        simp only [Except.ok.injEq, Prod.mk.injEq] at h
        obtain ⟨rfl, rfl⟩ := h
        exact allValidB_saveDB hv (build_ok_valid hb).1

theorem deductRep_allValid {db db2 : DB} {now c amt : Nat} {r : FamilyMember}
    (hv : allValidB db = true) (h : deductRep db now c amt = .ok (db2, r)) :
    allValidB db2 = true := by
  unfold deductRep at h
  split at h
  · exact Except.noConfusion h
  · split at h
    · exact Except.noConfusion h
    · split at h
      · exact Except.noConfusion h
      · rename_i m _ _ m2 hb
        simp only [Except.ok.injEq, Prod.mk.injEq] at h
        obtain ⟨rfl, rfl⟩ := h
        exact allValidB_saveDB hv (build_ok_valid hb).1

theorem awardRepToSenior_allValid {db db2 : DB} {now j amt : Nat}
    {r : FamilyMember} (hv : allValidB db = true)
    (h : awardRepToSenior db now j amt = .ok (db2, r)) :
    allValidB db2 = true := by
  unfold awardRepToSenior at h
  split at h
  · exact Except.noConfusion h
  · split at h
    · exact Except.noConfusion h
    · split at h
      · exact Except.noConfusion h
      · split at h
        · exact Except.noConfusion h
        · simp only [Except.ok.injEq, Prod.mk.injEq] at h
          obtain ⟨rfl, rfl⟩ := h
          exact allValidB_saveDB hv (build_ok_valid (by assumption)).1

theorem processRepActivity_allValid {db db2 : DB} {now j v : Nat} {ty : String}
    {r : FamilyMember} (hv : allValidB db = true)
    (h : processRepActivity db now j ty v = .ok (db2, r)) :
    allValidB db2 = true := by
  unfold processRepActivity at h
  split at h
  · split at h
    · simp only [Except.ok.injEq, Prod.mk.injEq] at h
      obtain ⟨rfl, rfl⟩ := h
      exact hv
    · exact awardRepToSenior_allValid hv h
  · split at h
    · split at h
      · simp only [Except.ok.injEq, Prod.mk.injEq] at h
        obtain ⟨rfl, rfl⟩ := h
        exact hv
      · exact awardRepToSenior_allValid hv h
    · exact Except.noConfusion h

theorem createMember_allValid {db db2 : DB} {now cid t lv w : Nat}
    {r : FamilyMember} (hv : allValidB db = true)
    (h : createMember db now cid t lv w = .ok (db2, r)) :
    allValidB db2 = true := by
  unfold createMember at h
  split at h
  · exact Except.noConfusion h
  · split at h
    · exact Except.noConfusion h
    · rename_i m hb
      simp only [Except.ok.injEq, Prod.mk.injEq] at h
      obtain ⟨rfl, rfl⟩ := h
      exact allValidB_saveDB hv (build_ok_valid hb).1

theorem ensureMemberExists_allValid {db db2 : DB} {now cid t lv w : Nat}
    {r : FamilyMember} (hv : allValidB db = true)
    (h : ensureMemberExists db now cid t lv w = .ok (db2, r)) :
    allValidB db2 = true := by
  unfold ensureMemberExists at h
  split at h
  · exact createMember_allValid hv h
  · split at h
    · split at h
      · exact Except.noConfusion h
      · rename_i m2 hb
        simp only [Except.ok.injEq, Prod.mk.injEq] at h
        obtain ⟨rfl, rfl⟩ := h
        exact allValidB_saveDB hv (build_ok_valid hb).1
    · simp only [Except.ok.injEq, Prod.mk.injEq] at h
      obtain ⟨rfl, rfl⟩ := h
      exact hv

theorem addJunior_allValid {db db2 : DB} {now s j : Nat} {r : FamilyMember}
    (hv : allValidB db = true) (h : addJunior db now s j = .ok (db2, r)) :
    allValidB db2 = true := by
  unfold addJunior at h
  split at h
  · exact Except.noConfusion h
  · split at h
    · exact Except.noConfusion h
    · split at h
      · exact Except.noConfusion h
      · split at h
        · exact Except.noConfusion h
        · split at h
          · exact Except.noConfusion h
          · split at h
            · exact Except.noConfusion h
            · split at h
              · exact Except.noConfusion h
              · split at h
                · exact Except.noConfusion h
                · split at h
                  · exact Except.noConfusion h
                  · simp only [Except.ok.injEq, Prod.mk.injEq] at h
                    obtain ⟨rfl, rfl⟩ := h
                    refine allValidB_saveDB (allValidB_saveDB hv ?_) ?_ <;>
                      exact (build_ok_valid (by assumption)).1

theorem clearJuniorsLoop_allValidAux {now : Nat} :
    ∀ (ids : List Nat) (db db2 : DB) (acc ups : List FamilyMember),
      allValidB db = true →
      clearJuniorsLoop now db ids acc = .ok (db2, ups) →
      allValidB db2 = true := by
  intro ids
  induction ids with
  | nil =>
    intro db db2 acc ups hv h
    unfold clearJuniorsLoop at h
    simp only [Except.ok.injEq, Prod.mk.injEq] at h
    obtain ⟨rfl, rfl⟩ := h
    exact hv
  | cons jid rest ih =>
    intro db db2 acc ups hv h
    unfold clearJuniorsLoop at h
    split at h
    · exact ih db db2 acc ups hv h
    · split at h
      · exact Except.noConfusion h
      · exact ih _ db2 _ ups
          (allValidB_saveDB hv (build_ok_valid (by assumption)).1) h

theorem clearJuniorsLoop_allValid {now : Nat} {ids : List Nat} {db db2 : DB}
    {acc ups : List FamilyMember} (hv : allValidB db = true)
    (h : clearJuniorsLoop now db ids acc = .ok (db2, ups)) :
    allValidB db2 = true :=
  clearJuniorsLoop_allValidAux ids db db2 acc ups hv h

theorem dropFromSenior_allValid {db db2 : DB} {now c : Nat}
    {member : FamilyMember} {ups : List FamilyMember}
    (hv : allValidB db = true)
    (h : dropFromSenior db now c member = .ok (db2, ups)) :
    allValidB db2 = true := by
  unfold dropFromSenior at h
  split at h
  · simp only [Except.ok.injEq, Prod.mk.injEq] at h
    obtain ⟨rfl, rfl⟩ := h
    exact hv
  · split at h
    · simp only [Except.ok.injEq, Prod.mk.injEq] at h
      obtain ⟨rfl, rfl⟩ := h
      exact hv
    · split at h
      · exact Except.noConfusion h
      · simp only [Except.ok.injEq, Prod.mk.injEq] at h
        obtain ⟨rfl, rfl⟩ := h
        exact allValidB_saveDB hv (build_ok_valid (by assumption)).1

theorem removeMemberCascade_allValid {db : DB} {now c : Nat}
    (hv : allValidB db = true) :
    allValidB (removeMemberCascade db now c).1 = true := by
  unfold removeMemberCascade
  split
  · exact hv
  · split
    · exact hv
    · split
      · exact hv
      · exact allValidB_deleteDB
          (clearJuniorsLoop_allValid
            (dropFromSenior_allValid hv (by assumption)) (by assumption))

theorem breakSeniorStep_allValid {db db2 : DB} {now c : Nat}
    {member : FamilyMember} {ups : List FamilyMember}
    (hv : allValidB db = true)
    (h : breakSeniorStep db now c member = .ok (db2, ups)) :
    allValidB db2 = true := by
  unfold breakSeniorStep at h
  split at h
  · simp only [Except.ok.injEq, Prod.mk.injEq] at h
    obtain ⟨rfl, rfl⟩ := h
    exact hv
  · split at h
    · exact Except.noConfusion h
    · split at h
      · exact Except.noConfusion h
      · simp only [Except.ok.injEq, Prod.mk.injEq] at h
        obtain ⟨rfl, rfl⟩ := h
        exact allValidB_saveDB (dropFromSenior_allValid hv (by assumption))
          (build_ok_valid (by assumption)).1

theorem breakLink_allValid {db db2 : DB} {now c : Nat}
    {ups : List FamilyMember} (hv : allValidB db = true)
    (h : breakLink db now c = .ok (db2, ups)) :
    allValidB db2 = true := by
  unfold breakLink at h
  split at h
  · exact Except.noConfusion h
  · split at h
    · exact Except.noConfusion h
    · split at h
      · exact Except.noConfusion h
      · split at h
        · simp only [Except.ok.injEq, Prod.mk.injEq] at h
          obtain ⟨rfl, rfl⟩ := h
          exact breakSeniorStep_allValid hv (by assumption)
        · split at h
          · exact Except.noConfusion h
          · split at h
            · exact Except.noConfusion h
            · simp only [Except.ok.injEq, Prod.mk.injEq] at h
              obtain ⟨rfl, rfl⟩ := h
              exact allValidB_saveDB
                (clearJuniorsLoop_allValid
                  (breakSeniorStep_allValid hv (by assumption))
                  (by assumption))
                (build_ok_valid (by assumption)).1

theorem fetchOrCreateJunior_allValid {db db2 : DB} {now j t lv w : Nat}
    {r : FamilyMember} (hv : allValidB db = true)
    (h : fetchOrCreateJunior db now j t lv w = .ok (db2, r)) :
    allValidB db2 = true := by
  unfold fetchOrCreateJunior at h
  split at h
  · simp only [Except.ok.injEq, Prod.mk.injEq] at h
    obtain ⟨rfl, rfl⟩ := h
    exact hv
  · exact createMember_allValid hv h

theorem syncJunior_allValid {db db2 : DB} {now lv w : Nat}
    {junior : FamilyMember} (hv : allValidB db = true)
    (h : syncJunior db now lv w junior = .ok db2) :
    allValidB db2 = true := by
  unfold syncJunior at h
  split at h
  · split at h
    · exact Except.noConfusion h
    · simp only [Except.ok.injEq] at h
      subst h
      exact allValidB_saveDB hv (build_ok_valid (by assumption)).1
  · simp only [Except.ok.injEq] at h
    subst h
    exact hv

theorem addJuniorWithValidation_allValid {db db2 : DB}
    {now s j t lv w : Nat} {ups : List FamilyMember}
    (hv : allValidB db = true)
    (h : addJuniorWithValidation db now s j t lv w = .ok (db2, ups)) :
    allValidB db2 = true := by
  unfold addJuniorWithValidation at h
  split at h
  · exact Except.noConfusion h
  · split at h
    · exact Except.noConfusion h
    · split at h
      · exact Except.noConfusion h
      · split at h
        · exact Except.noConfusion h
        · split at h
          · exact Except.noConfusion h
          · split at h
            · exact Except.noConfusion h
            · split at h
              · exact Except.noConfusion h
              · split at h
                · simp only [Except.ok.injEq, Prod.mk.injEq] at h
                  obtain ⟨rfl, rfl⟩ := h
                  exact allValidB_saveDB
                    (allValidB_saveDB
                      (syncJunior_allValid
                        (fetchOrCreateJunior_allValid hv (by assumption))
                        (by assumption))
                      (build_ok_valid (by assumption)).1)
                    (build_ok_valid (by assumption)).1
                · exact Except.noConfusion h

theorem dissolveLoop_allValid {now : Nat} :
    ∀ (ids : List Nat) (db : DB) (acc : List FamilyMember),
      allValidB db = true →
      allValidB (dissolveLoop now db ids acc).1 = true := by
  intro ids
  induction ids with
  | nil => intro db acc hv; exact hv
  | cons jid rest ih =>
    intro db acc hv
    unfold dissolveLoop
    have hr := @removeMemberCascade_allValid db now jid hv
    split
    · rename_i db1 ms e heq
      rw [heq] at hr
      exact hr
    · rename_i db1 ms heq
      rw [heq] at hr
      exact ih db1 _ hr

theorem dissolveSubtree_allValid {db : DB} {now s : Nat}
    (hv : allValidB db = true) :
    allValidB (dissolveSubtree db now s).1 = true := by
  unfold dissolveSubtree
  split
  · exact hv
  · rename_i member hm
    have hl := @dissolveLoop_allValid now member.juniorIds db [] hv
    split
    · rename_i db1 ms e heq
      rw [heq] at hl
      exact hl
    · rename_i db1 acc heq
      rw [heq] at hl
      have hr := @removeMemberCascade_allValid db1 now s hl
      split
      · rename_i db2 ms e heq2
        rw [heq2] at hr
        exact hr
      · rename_i db2 ms heq2
        rw [heq2] at hr
        exact hr

theorem resetDailyRepDB_allValid {db : DB} {now : Nat}
    (hv : allValidB db = true) :
    allValidB (resetDailyRepDB db now).1 = true := by
  refine List.all_eq_true.mpr fun y hy => ?_
  obtain ⟨z, hz, hzy⟩ := List.mem_map.mp hy
  have hzv := allValidB_mem hv hz
  by_cases hc : 0 < z.dailyRep
  · simp only [hc, if_true] at hzy
    subst hzy
    have he : ({ z with dailyRep := 0, updatedAt := now } : FamilyMember) =
        { z with rep := z.rep, dailyRep := 0, updatedAt := now } := rfl
    rw [he]
    exact memberValidB_fields hzv (by omega)
  · simp only [hc, if_false] at hzy
    subst hzy
    exact hzv

theorem runCom_allValid (c : Com) {db : DB} (hv : allValidB db = true) :
    allValidB (runCom c db) = true := by
  cases c with
  | addJunior now s j =>
    simp only [runCom]
    split
    · exact addJunior_allValid hv (by assumption)
    · exact hv
  | addJuniorWithValidation now s j t lv w =>
    simp only [runCom]
    split
    · exact addJuniorWithValidation_allValid hv (by assumption)
    · exact hv
  | removeMember now c =>
    simp only [runCom]
    exact removeMemberCascade_allValid hv
  | breakLink now c =>
    simp only [runCom]
    split
    · exact breakLink_allValid hv (by assumption)
    · exact hv
  | awardRep now c amt =>
    simp only [runCom]
    split
    · exact awardRep_allValid hv (by assumption)
    · exact hv
  | deductRep now c amt =>
    simp only [runCom]
    split
    · exact deductRep_allValid hv (by assumption)
    · exact hv
  | awardRepToSenior now j amt =>
    simp only [runCom]
    split
    · exact awardRepToSenior_allValid hv (by assumption)
    · exact hv
  | processRepActivity now j ty v =>
    simp only [runCom]
    split
    · exact processRepActivity_allValid hv (by assumption)
    · exact hv
  | resetDailyRep now =>
    simp only [runCom]
    exact resetDailyRepDB_allValid hv
  | createMember now cid t lv w =>
    simp only [runCom]
    split
    · exact createMember_allValid hv (by assumption)
    · exact hv
  | ensureMemberExists now cid t lv w =>
    simp only [runCom]
    split
    · exact ensureMemberExists_allValid hv (by assumption)
    · exact hv
  | dissolveSubtree now s =>
    simp only [runCom]
    exact dissolveSubtree_allValid hv

theorem run_allValid :
    ∀ (cs : List Com) (db : DB), allValidB db = true →
      allValidB (run cs db) = true := by
  intro cs
  induction cs with
  | nil => intro db hv; exact hv
  | cons c rest ih => intro db hv; exact ih (runCom c db) (runCom_allValid c hv)

theorem containsNat_eq_true_iff {xs : List Nat} {x : Nat} :
    containsNat xs x = true ↔ x ∈ xs := by
  simp only [containsNat, List.any_eq_true, beq_iff_eq]
  constructor
  · rintro ⟨a, ha, rfl⟩
    exact ha
  · intro h
    exact ⟨x, h, rfl⟩

theorem nodup_of_hasDup_false {xs : List Nat} (h : hasDup xs = false) :
    xs.Nodup := by
  induction xs with
  | nil => exact List.nodup_nil
  | cons x rest ih =>
    unfold hasDup at h
    simp only [Bool.or_eq_false_iff] at h
    refine List.nodup_cons.mpr ⟨?_, ih h.2⟩
    intro hmem
    have := containsNat_eq_true_iff.mpr hmem
    rw [this] at h
    exact Bool.noConfusion h.1

theorem awardRep_spec (db : DB) (now c amt : Nat) (m : FamilyMember)
    (hf : findMember db c = some m) (hv : memberValidB m = true) :
    (u32 (m.dailyRep + amt) ≤ 5000 →
       awardRep db now c amt =
         .ok (saveDB db (repUpd now amt m), repUpd now amt m)) ∧
    (5000 < u32 (m.dailyRep + amt) →
       awardRep db now c amt = .error .repCapExceeded) := by
  constructor <;> intro hcap <;> unfold awardRep <;> rw [hf]
  · have hc : canReceiveRepB m amt = true := by
      simp [canReceiveRepB, hcap]
    have hb := build_repUpd now amt hv
    rw [if_pos hcap] at hb
    simp only [hc, Bool.not_true, Bool.false_eq_true, if_false]
    rw [show touchB now (addDailyRepB amt (addRepB amt m)) =
          repUpd now amt m from rfl, hb]
  · have hc : canReceiveRepB m amt = false := by
      simp only [canReceiveRepB, decide_eq_false_iff_not, Nat.not_le]
      exact hcap
    simp only [hc, Bool.not_false, if_true]

theorem memberInvariants_of_validB {m : FamilyMember}
    (h : memberValidB m = true) : MemberInvariants m := by
  unfold memberValidB at h
  simp only [Bool.and_eq_true, Bool.not_eq_true'] at h
  obtain ⟨⟨⟨⟨⟨⟨⟨h1, h2⟩, h3⟩, h4⟩, h5⟩, h6⟩, h7⟩, h8⟩ := h
  refine ⟨by simpa using h4, nodup_of_hasDup_false h6, ?_, ?_, by simpa using h8, ?_⟩
  · intro sid hs
    rw [hs] at h7
    simpa using h7
  · intro hmem
    rw [containsNat_eq_true_iff.mpr hmem] at h5
    exact Bool.noConfusion h5
  · simp only [bne_iff_ne, ne_eq] at h3
    omega

theorem resetDailyRepDB_all_zero (db : DB) (now : Nat) :
    ∀ m ∈ (resetDailyRepDB db now).1, m.dailyRep = 0 := by
  intro m hm
  obtain ⟨z, hz, hzy⟩ := List.mem_map.mp hm
  by_cases hc : 0 < z.dailyRep
  · simp only [hc, if_true] at hzy
    subst hzy
    rfl
  · simp only [hc, if_false] at hzy
    subst hzy
    omega

theorem resetDailyRepDB_noop :
    ∀ (db : DB) (now : Nat), (∀ m ∈ db, m.dailyRep = 0) →
      resetDailyRepDB db now = (db, 0) := by
  intro db
  induction db with
  | nil => intro now _; rfl
  | cons x xs ih =>
    intro now h
    have hx : x.dailyRep = 0 := h x (List.mem_cons_self x xs)
    have hxs := ih now fun m hm => h m (List.mem_cons_of_mem x hm)
    unfold resetDailyRepDB at hxs ⊢
    simp only [Prod.mk.injEq] at hxs ⊢
    refine ⟨?_, ?_⟩
    · simp [List.map_cons, hx, hxs.1]
    · simp [List.filter_cons, hx, hxs.2]

/-- C2: every `FamilyMember` constructed through the validating builder
satisfies the single-record invariants (at most two junior ids with no
duplicates, no self-reference as senior or junior, daily rep at most 5000,
positive level), and the invariants hold for every member of the store after
any sequence of operations started from a store of valid members. -/
theorem c2_single_record_invariants :
    (∀ b m : FamilyMember, build b = Except.ok m → MemberInvariants m) ∧
    (∀ (cs : List Com) (db : DB), allValidB db = true →
       ∀ m ∈ run cs db, MemberInvariants m) := by
  constructor
  · intro b m h
    exact memberInvariants_of_validB (build_ok_valid h).1
  · intro cs db hv m hm
    exact memberInvariants_of_validB (allValidB_mem (run_allValid cs db hv) hm)

/-- Witness for C2 at a concrete builder state and a concrete two-step run
(an award followed by the daily reset) over the two-member store. -/
theorem c2_single_record_invariants_witness :
    MemberInvariants (mkM 1 none [2] 10) ∧
    (∀ m ∈ run [Com.awardRep 3 1 10, Com.resetDailyRep 4] c5db,
       MemberInvariants m) :=
  ⟨c2_single_record_invariants.1 (mkM 1 none [2] 10) (mkM 1 none [2] 10) rfl,
   c2_single_record_invariants.2 [Com.awardRep 3 1 10, Com.resetDailyRep 4]
     c5db rfl⟩

/-- C3 (amended): for a stored, `Build`-valid member, `AwardRep` succeeds
exactly when `(dailyRep + amount) mod 2^32 <= 5000` - the `CanReceiveRep`
predicate as Go's wrapping uint32 addition computes it, not the mathematical
sum - and on success adds the amount to both `rep` and `dailyRep` modulo 2^32
and saves the touched record; otherwise it fails with `RepCapExceeded` and
changes nothing. -/
theorem c3_awardRep (db : DB) (now c amt : Nat) (m : FamilyMember)
    (hf : findMember db c = some m) (hv : memberValidB m = true) :
    (u32 (m.dailyRep + amt) ≤ 5000 →
       awardRep db now c amt =
         .ok (saveDB db (repUpd now amt m), repUpd now amt m)) ∧
    (5000 < u32 (m.dailyRep + amt) →
       awardRep db now c amt = .error .repCapExceeded) :=
  awardRep_spec db now c amt m hf hv

/-- Witness for C3: a member at 4900 daily rep receives 100 more. -/
theorem c3_awardRep_witness :
    (u32 ((mkM 1 none [2] 40 : FamilyMember).dailyRep + 4900 + 100) ≤ 5000 →
       awardRep wdb 3 1 100 =
         .ok (saveDB wdb (repUpd 3 100 { mkM 1 none [2] 40 with dailyRep := 4900 }),
              repUpd 3 100 { mkM 1 none [2] 40 with dailyRep := 4900 })) ∧
    True :=
  ⟨fun _ => (c3_awardRep wdb 3 1 100
      { mkM 1 none [2] 40 with dailyRep := 4900 } rfl rfl).1 (by decide),
   trivial⟩

/-- C3 counterexample: with 4000 daily rep, awarding 4294966296 succeeds (the
uint32 sum wraps to 3000) although the mathematical sum 4294970296 exceeds
5000, so the claim read over mathematical integers is false. -/
theorem c3_cap_overflow_cex :
    awardRep c3db 1 1 4294966296 =
      .ok ([{ mkM 1 none [] 10 with
                rep := 4294966296, dailyRep := 3000, updatedAt := 1 }],
           { mkM 1 none [] 10 with
             rep := 4294966296, dailyRep := 3000, updatedAt := 1 }) ∧
    5000 < 4000 + 4294966296 :=
  ⟨rfl, by omega⟩

/-- C7: `ResetDailyRep` reports exactly the number of members whose daily rep
was positive, zeroes every member's daily rep, and an immediate second run is
the identity on the store and reports 0 affected rows. -/
theorem c7_resetDailyRep (db : DB) (now now2 : Nat) :
    (resetDailyRepDB db now).2 =
      (db.filter (fun m => 0 < m.dailyRep)).length ∧
    ((resetDailyRepDB db now).1.all (fun m => m.dailyRep == 0)) = true ∧
    resetDailyRepDB (resetDailyRepDB db now).1 now2 =
      ((resetDailyRepDB db now).1, 0) := by
  refine ⟨rfl, ?_, ?_⟩
  · exact List.all_eq_true.mpr fun y hy => by
      simpa using resetDailyRepDB_all_zero db now y hy
  · exact resetDailyRepDB_noop _ now2 (resetDailyRepDB_all_zero db now)

/-- C9: the scheduler's next fire time (at minute granularity) is the
configured hour/minute slot today, pushed to tomorrow exactly when that slot
is already past; in particular a scheduler configured for 02:30 and consulted
at 03:00 of day n fires at 02:30 of day n+1. -/
theorem c9_calculateNextResetTime (rh rm now : Nat)
    (hh : rh ≤ 23) (hm : rm ≤ 59) :
    calculateNextResetTime rh rm now % 1440 = rh * 60 + rm ∧
    now ≤ calculateNextResetTime rh rm now ∧
    calculateNextResetTime rh rm now < now + 1440 ∧
    (rh * 60 + rm < now % 1440 →
       calculateNextResetTime rh rm now =
         (now / 1440 + 1) * 1440 + (rh * 60 + rm)) ∧
    (now % 1440 ≤ rh * 60 + rm →
       calculateNextResetTime rh rm now =
         now / 1440 * 1440 + (rh * 60 + rm)) ∧
    (∀ n : Nat, calculateNextResetTime 2 30 (n * 1440 + 180) =
       (n + 1) * 1440 + 150) := by
  refine ⟨?_, ?_, ?_, ?_, ?_, ?_⟩
  · unfold calculateNextResetTime
    split <;> omega
  · unfold calculateNextResetTime
    split <;> omega
  · unfold calculateNextResetTime
    split <;> omega
  · intro h
    unfold calculateNextResetTime
    split <;> omega
  · intro h
    unfold calculateNextResetTime
    split <;> omega
  · intro n
    unfold calculateNextResetTime
    split <;> omega

/-- Witness for C9 at the spec's example: reset 02:30, clock 03:00 of day 5. -/
theorem c9_calculateNextResetTime_witness :
    calculateNextResetTime 2 30 (5 * 1440 + 180) % 1440 = 2 * 60 + 30 ∧
    calculateNextResetTime 2 30 (5 * 1440 + 180) = (5 + 1) * 1440 + 150 :=
  ⟨(c9_calculateNextResetTime 2 30 (5 * 1440 + 180) (by decide) (by decide)).1,
   (c9_calculateNextResetTime 2 30 (5 * 1440 + 180) (by decide)
     (by decide)).2.2.2.2.2 5⟩

/-- C10: when the stored member's level and world already equal the supplied
values, `EnsureMemberExists` returns the stored record as is and the store is
untouched - no rebuild, no touch, no save. -/
theorem c10_ensureMemberExists (db : DB) (now cid tenant lvl world : Nat)
    (m : FamilyMember) (hf : findMember db cid = some m)
    (hl : m.level = lvl) (hw : m.world = world) :
    ensureMemberExists db now cid tenant lvl world = .ok (db, m) := by
  unfold ensureMemberExists
  rw [hf]
  have hcond : (m.level != lvl || m.world != world) = false := by
    rw [hl, hw]
    simp
  simp only [hcond, Bool.false_eq_true, if_false]

/-- Witness for C10: member 1 of the two-member store already has level 10 and
world 0, so the call returns it unchanged with the same store. -/
theorem c10_ensureMemberExists_witness :
    ensureMemberExists c5db 9 1 1 10 0 = .ok (c5db, mkM 1 none [2] 10) :=
  c10_ensureMemberExists c5db 9 1 1 10 0 (mkM 1 none [2] 10) rfl rfl rfl

/-- C4: `AwardRepToSenior` resolves the junior's senior, halves the amount
(integer division, `finAmount`) exactly when the junior's level strictly
exceeds the senior's, and the senior's daily-rep-cap precondition governs the
award: under the cap the call behaves exactly like `AwardRep` of the final
amount on the senior (same success value, same saved record), over the cap
both refuse and leave the store unchanged (the administrator surfacing the
builder's `InvalidDailyRep`, the processor `RepCapExceeded`); a junior with no
senior fails with `NoSenior`. -/
theorem c4_awardRepToSenior :
    (∀ (db : DB) (now j amt : Nat) (junior : FamilyMember),
        findMember db j = some junior → junior.seniorId = none →
        awardRepToSenior db now j amt = .error .noSenior) ∧
    (∀ (db : DB) (now j amt sid : Nat) (junior senior : FamilyMember),
        findMember db j = some junior → junior.seniorId = some sid →
        findMember db sid = some senior → memberValidB senior = true →
        ((u32 (senior.dailyRep + finAmount junior senior amt) ≤ 5000 →
            awardRepToSenior db now j amt =
              awardRep db now sid (finAmount junior senior amt) ∧
            awardRepToSenior db now j amt =
              .ok (saveDB db (repUpd now (finAmount junior senior amt) senior),
                   repUpd now (finAmount junior senior amt) senior)) ∧
         (5000 < u32 (senior.dailyRep + finAmount junior senior amt) →
            awardRepToSenior db now j amt = .error .invalidDailyRep ∧
            awardRep db now sid (finAmount junior senior amt) =
              .error .repCapExceeded))) := by
  constructor
  · intro db now j amt junior hj hs
    unfold awardRepToSenior
    simp only [hj, hs]
  · intro db now j amt sid junior senior hj hs hsen hv
    have hb := build_repUpd now (finAmount junior senior amt) hv
    have hfin : touchB now (addDailyRepB (finAmount junior senior amt)
        (addRepB (finAmount junior senior amt) senior)) =
        repUpd now (finAmount junior senior amt) senior := rfl
    constructor
    · intro hcap
      have hok : awardRepToSenior db now j amt =
          .ok (saveDB db (repUpd now (finAmount junior senior amt) senior),
               repUpd now (finAmount junior senior amt) senior) := by
        unfold awardRepToSenior
        simp only [hj, hs, hsen]
        rw [hfin, hb, if_pos hcap]
      refine ⟨?_, hok⟩
      rw [hok,
        (awardRep_spec db now sid (finAmount junior senior amt) senior hsen
          hv).1 hcap]
    · intro hcap
      refine ⟨?_, (awardRep_spec db now sid (finAmount junior senior amt)
        senior hsen hv).2 hcap⟩
      unfold awardRepToSenior
      simp only [hj, hs, hsen]
      rw [hfin, hb, if_neg (by omega)]

/-- Witness for C4: junior 2 at level 60 outlevels senior 1 at level 40, so an
award of 100 is halved to 50 (`finAmount ... = 50`) and, with the senior at
4900 daily rep, fits the cap. -/
theorem c4_awardRepToSenior_witness :
    ((u32 (({ mkM 1 none [2] 40 with dailyRep := 4900 } :
          FamilyMember).dailyRep +
        finAmount (mkM 2 (some 1) [] 60)
          { mkM 1 none [2] 40 with dailyRep := 4900 } 100) ≤ 5000 →
        awardRepToSenior wdb 3 2 100 =
          awardRep wdb 3 1 (finAmount (mkM 2 (some 1) [] 60)
            { mkM 1 none [2] 40 with dailyRep := 4900 } 100) ∧
        awardRepToSenior wdb 3 2 100 =
          .ok (saveDB wdb (repUpd 3 (finAmount (mkM 2 (some 1) [] 60)
                 { mkM 1 none [2] 40 with dailyRep := 4900 } 100)
                 { mkM 1 none [2] 40 with dailyRep := 4900 }),
               repUpd 3 (finAmount (mkM 2 (some 1) [] 60)
                 { mkM 1 none [2] 40 with dailyRep := 4900 } 100)
                 { mkM 1 none [2] 40 with dailyRep := 4900 })) ∧
     (5000 < u32 (({ mkM 1 none [2] 40 with dailyRep := 4900 } :
          FamilyMember).dailyRep +
        finAmount (mkM 2 (some 1) [] 60)
          { mkM 1 none [2] 40 with dailyRep := 4900 } 100) →
        awardRepToSenior wdb 3 2 100 = .error .invalidDailyRep ∧
        awardRep wdb 3 1 (finAmount (mkM 2 (some 1) [] 60)
            { mkM 1 none [2] 40 with dailyRep := 4900 } 100) =
          .error .repCapExceeded)) ∧
    finAmount (mkM 2 (some 1) [] 60)
      { mkM 1 none [2] 40 with dailyRep := 4900 } 100 = 50 :=
  ⟨c4_awardRepToSenior.2 wdb 3 2 100 1 (mkM 2 (some 1) [] 60)
      { mkM 1 none [2] 40 with dailyRep := 4900 } rfl rfl rfl (by decide),
   rfl⟩

/-- C5 (amended): `ProcessRepActivity` translates by the fixed table computed
in uint32 arithmetic - `mob_kill` yields `floor(value/5) * 2` (never wraps for
uint32 inputs), `expedition` yields `value * 10` reduced modulo 2^32 - and
hands the amount to `AwardRepToSenior`; a zero amount is a silent no-op that
leaves the store alone, and an unknown activity type fails with
`InvalidActivityType`. -/
theorem c5_processRepActivity (db : DB) (now j value : Nat)
    (hval : value < 4294967296) :
    (processRepActivity db now j "mob_kill" value =
       if value / 5 * 2 = 0 then .ok (db, FamilyMember.zero)
       else awardRepToSenior db now j (value / 5 * 2)) ∧
    (processRepActivity db now j "expedition" value =
       if u32 (value * 10) = 0 then .ok (db, FamilyMember.zero)
       else awardRepToSenior db now j (u32 (value * 10))) ∧
    (∀ ty : String, ty ≠ "mob_kill" → ty ≠ "expedition" →
       processRepActivity db now j ty value = .error .invalidActivityType) := by
  have hu : u32 (value / 5 * 2) = value / 5 * 2 := by
    unfold u32
    apply Nat.mod_eq_of_lt
    omega
  refine ⟨?_, ?_, ?_⟩
  · unfold processRepActivity
    rw [if_pos rfl, hu]
  · unfold processRepActivity
    rw [if_neg (by decide), if_pos rfl]
  · intro ty h1 h2
    unfold processRepActivity
    rw [if_neg h1, if_neg h2]

/-- Witness for C5 at the spec's example tally: 12 mob kills award
`floor(12/5)*2 = 4` through the junior's senior. -/
theorem c5_processRepActivity_witness :
    (processRepActivity c5db 1 2 "mob_kill" 12 =
       if 12 / 5 * 2 = 0 then .ok (c5db, FamilyMember.zero)
       else awardRepToSenior c5db 1 2 (12 / 5 * 2)) ∧
    (processRepActivity c5db 1 2 "expedition" 12 =
       if u32 (12 * 10) = 0 then .ok (c5db, FamilyMember.zero)
       else awardRepToSenior c5db 1 2 (u32 (12 * 10))) ∧
    (∀ ty : String, ty ≠ "mob_kill" → ty ≠ "expedition" →
       processRepActivity c5db 1 2 ty 12 = .error .invalidActivityType) :=
  c5_processRepActivity c5db 1 2 12 (by decide)

/-- C5 counterexample: an expedition tally of 429496730 is credited as
`429496730 * 10 mod 2^32 = 4`, not as `429496730 * 10 = 4294967300`, so the
unreduced table of the claim is false. -/
theorem c5_expedition_overflow_cex :
    processRepActivity c5db 5 2 "expedition" 429496730 =
      .ok (c5dbAfter,
           { mkM 1 none [2] 10 with rep := 4, dailyRep := 4, updatedAt := 5 }) ∧
    (4 : Nat) ≠ 429496730 * 10 :=
  ⟨rfl, by omega⟩

/-- C1: evaluation at the failing input.  The three-member store (1 sponsors
2, 3 is free) is bidirectionally consistent; the coordination layer's
add-junior path relinking junior 2 to senior 3 completes successfully, and
the resulting store violates bidirectional consistency: member 1 still lists
2 as a junior while 2's senior pointer now names 3. -/
theorem c1_addJuniorWithValidation_breaks_bidir :
    bidirConsistentB c1db = true ∧
    (okDB2 (addJuniorWithValidation c1db 5 3 2 1 10 0)).map bidirConsistentB =
      some false ∧
    (okDB2 (addJuniorWithValidation c1db 5 3 2 1 10 0)).map
        (fun db => (findMember db 1).map FamilyMember.juniorIds) =
      some (some [2]) ∧
    (okDB2 (addJuniorWithValidation c1db 5 3 2 1 10 0)).map
        (fun db => (findMember db 2).map FamilyMember.seniorId) =
      some (some (some 3)) :=
  ⟨rfl, rfl, rfl, rfl⟩

/-- C6: evaluation at the failing input.  Linking senior 1 to junior 2 (which
itself sponsors 3) succeeds, and the subsequent `BreakLink` of 2 completes -
but the final store keeps 2's senior pointer at 1 (the member's last save is
built from the pre-break record with only the junior list cleared), while 1
no longer lists 2, so the round trip does not leave 2 without a senior. -/
theorem c6_breakLink_stale_senior :
    linkThenBreak c6db 5 6 1 2 = some c6dbAfter ∧
    (findMember c6dbAfter 2).map FamilyMember.seniorId = some (some 1) ∧
    (findMember c6dbAfter 1).map FamilyMember.juniorIds = some [] :=
  ⟨rfl, rfl, rfl⟩

/-- C8 (amended): when `DissolveSubtree` fails partway it hands the caller the
error together with an EMPTY member list - never the members updated before
the failure - while the removals that already completed remain applied: at the
concrete store whose senior lists a dangling junior id, the failed dissolution
leaves the updated senior record (not present in the initial store) in the
final store and still returns no members. -/
theorem c8_dissolve_error_empty :
    (∀ (db : DB) (now s : Nat) (db2 : DB) (ms : List FamilyMember) (e : Err),
        dissolveSubtree db now s = (db2, ms, some e) → ms = []) ∧
    (dissolveSubtree c8db 7 1 = ([c8m1After 7], [], some .memberNotFound) ∧
     c8m1After 7 ∉ c8db) := by
  constructor
  · intro db now s db2 ms e h
    unfold dissolveSubtree at h
    split at h
    · simp only [Prod.mk.injEq] at h
      exact h.2.1.symm
    · split at h
      · simp only [Prod.mk.injEq] at h
        exact h.2.1.symm
      · split at h
        · simp only [Prod.mk.injEq] at h
          exact h.2.1.symm
        · simp only [Prod.mk.injEq] at h
          exact Option.noConfusion h.2.2
  · exact ⟨rfl, by decide⟩

/-- Witness for C8 discharging the hypothesis of the universal part at the
concrete failed dissolution. -/
theorem c8_dissolve_error_empty_witness : ([] : List FamilyMember) = [] :=
  c8_dissolve_error_empty.1 c8db 8 1 [c8m1After 8] [] Err.memberNotFound rfl

/-- C8 counterexample: the dissolution of member 1's subtree fails on the
dangling junior id 99 after the removal of junior 2 already committed; the
caller receives the error with an empty list even though the updated member 1
(now listing only 99) was successfully written - the partial list promised by
the claim is not returned. -/
theorem c8_dissolve_partial_cex :
    dissolveSubtree c8db 7 1 = ([c8m1After 7], [], some Err.memberNotFound) ∧
    c8m1After 7 ∉ c8db ∧ c8db ≠ [c8m1After 7] :=
  ⟨rfl, by decide, by decide⟩

end AtlasFamilies
